import Mathlib

/-! Verification of the context-assistant extraction backend.

Strings are modelled as lists of characters (`Str`).  The JavaScript string
primitives used by the code (`trim`, `toLowerCase`, `replace(/\s+/g, " ")`,
`replace(/[,;.!?]+$/, "")`, `includes`) are embedded as executable functions,
and the JavaScript regular expressions appearing in the sources are embedded
through a small executable backtracking engine that is faithful to the
constructs those patterns use (alternation order, greedy and lazy
quantifiers, character classes under the `i` flag, word boundaries, `$`,
`matchAll` iteration).  All definitions are executable so concrete runs can
be settled by `decide`. -/

abbrev Str := List Char

def ls (s : String) : Str := s.data

/-- Membership of a character (by code point) in a list of inclusive ranges. -/
def inRanges (rs : List (Nat × Nat)) (c : Char) : Bool :=
  rs.any (fun r => decide (r.1 ≤ c.toNat ∧ c.toNat ≤ r.2))

/-- The JavaScript whitespace set: the `\s` character class, which is also the
set removed by `String.prototype.trim` and collapsed by `replace(/\s+/g, " ")`. -/
def wsCodes : List (Nat × Nat) :=
  [(9, 13), (32, 32), (160, 160), (5760, 5760), (8192, 8202), (8232, 8233),
   (8239, 8239), (8287, 8287), (12288, 12288), (65279, 65279)]

def isWS (c : Char) : Bool := inRanges wsCodes c

/-- JavaScript `toLowerCase` on one character (ASCII case mapping; all strings
handled by this repository's patterns and keyword lists are ASCII). -/
def lowerC (c : Char) : Char :=
  if 65 ≤ c.toNat ∧ c.toNat ≤ 90 then Char.ofNat (c.toNat + 32) else c

/-- JavaScript `toUpperCase` on one character (ASCII case mapping). -/
def upperC (c : Char) : Char :=
  if 97 ≤ c.toNat ∧ c.toNat ≤ 122 then Char.ofNat (c.toNat - 32) else c

def lowerStr (s : Str) : Str := s.map lowerC

/-- JavaScript `String.prototype.trim`. -/
def jsTrim (s : Str) : Str := ((s.dropWhile isWS).reverse.dropWhile isWS).reverse

/-- JavaScript `replace(/\s+/g, " ")`: every maximal whitespace run becomes one
space. -/
def collapseWS : Str → Str
  | [] => []
  | [c] => if isWS c then [' '] else [c]
  | c :: d :: rest =>
    if isWS c && isWS d then collapseWS (d :: rest)
    else (if isWS c then ' ' else c) :: collapseWS (d :: rest)

def isPunctTail (c : Char) : Bool :=
  c = ',' || c = ';' || c = '.' || c = '!' || c = '?'

/-- JavaScript `replace(/[,;.!?]+$/, "")`: strip the maximal trailing run of
those punctuation characters. -/
def stripTrailingPunct (s : Str) : Str := (s.reverse.dropWhile isPunctTail).reverse

/-- `cleanExtractedValue` from the deterministic extractor (part_001):
`value.replace(/[,;.!?]+$/, "").replace(/\s+/g, " ").trim()`. -/
def cleanExtractedValue (value : Str) : Str :=
  jsTrim (collapseWS (stripTrailingPunct value))

theorem toNat_ofNat_valid (n : Nat) (h : n < 55296) : (Char.ofNat n).toNat = n := by
  have hv : n.isValidChar := Or.inl h
  simp only [Char.ofNat, hv, dif_pos, Char.ofNatAux, Char.toNat, UInt32.toNat,
    BitVec.toNat_ofNatLt]

theorem isWS_false_of_alpha (c : Char) (h1 : 65 ≤ c.toNat) (h2 : c.toNat ≤ 122) :
    isWS c = false := by
  simp only [isWS, inRanges, wsCodes, List.any_cons, List.any_nil, Bool.or_false,
    Bool.or_eq_false_iff, decide_eq_false_iff_not]
  omega

theorem isWS_lowerC (c : Char) : isWS (lowerC c) = isWS c := by
  unfold lowerC
  split
  · rename_i h
    have h32 : (Char.ofNat (c.toNat + 32)).toNat = c.toNat + 32 :=
      toNat_ofNat_valid _ (by omega)
    rw [isWS_false_of_alpha (Char.ofNat (c.toNat + 32)) (by omega) (by omega)]
    rw [isWS_false_of_alpha c (by omega) (by omega)]
  · rfl

theorem length_lowerStr (s : Str) : (lowerStr s).length = s.length :=
  List.length_map s lowerC

theorem head?_fails_of_dropWhile (p : Char → Bool) (l : Str) :
    ∀ c ∈ (l.dropWhile p).head?, p c = false := by
  intro c hc
  have h := List.head?_dropWhile_not p l
  revert h
  cases hh : (l.dropWhile p).head? with
  | none => simp [hh] at hc
  | some d =>
    intro h
    simp [hh] at hc h
    rw [hc] at h
    exact h

theorem dropWhile_eq_self_of_head? (p : Char → Bool) (l : Str)
    (h : ∀ c ∈ l.head?, p c = false) : l.dropWhile p = l := by
  cases l with
  | nil => rfl
  | cons a t =>
    have : p a = false := h a (by simp)
    simp [List.dropWhile_cons, this]

theorem getLast?_of_suffix {l m : Str} (h : l <:+ m) (hne : l ≠ []) :
    l.getLast? = m.getLast? := by
  obtain ⟨t, rfl⟩ := h
  rw [List.getLast?_append_of_ne_nil _ hne]

/-- Characterization of fixed points of `jsTrim`: first and last characters
are not whitespace. -/
theorem jsTrim_eq_self_iff (s : Str) :
    jsTrim s = s ↔ (∀ c ∈ s.head?, isWS c = false) ∧ (∀ c ∈ s.getLast?, isWS c = false) := by
  constructor
  · intro h
    constructor
    · rw [← h]
      intro c hc
      unfold jsTrim at hc
      rcases hb : ((s.dropWhile isWS).reverse.dropWhile isWS) with _ | ⟨x, xs⟩
      · rw [hb] at hc; simp at hc
      · -- head of the reverse = getLast of b; b is a suffix of (dropWhile result).reverse
        rw [hb] at hc
        rw [List.head?_reverse] at hc
        have hsuf : (x :: xs) <:+ (s.dropWhile isWS).reverse := by
          rw [← hb]; exact List.dropWhile_suffix isWS
        have hgl : (x :: xs).getLast? = (s.dropWhile isWS).reverse.getLast? :=
          getLast?_of_suffix hsuf (by simp)
        rw [hgl, List.getLast?_reverse] at hc
        exact head?_fails_of_dropWhile isWS s c hc
    · rw [← h]
      intro c hc
      unfold jsTrim at hc
      rw [List.getLast?_reverse] at hc
      exact head?_fails_of_dropWhile isWS _ c hc
  · rintro ⟨h1, h2⟩
    unfold jsTrim
    rw [dropWhile_eq_self_of_head? _ _ h1]
    rw [dropWhile_eq_self_of_head? _ _ (by rw [List.head?_reverse]; exact h2)]
    exact List.reverse_reverse s

theorem jsTrim_idem (s : Str) : jsTrim (jsTrim s) = jsTrim s := by
  rw [jsTrim_eq_self_iff]
  constructor
  · intro c hc
    unfold jsTrim at hc
    rcases hb : ((s.dropWhile isWS).reverse.dropWhile isWS) with _ | ⟨x, xs⟩
    · rw [hb] at hc; simp at hc
    · rw [hb, List.head?_reverse] at hc
      have hsuf : (x :: xs) <:+ (s.dropWhile isWS).reverse := by
        rw [← hb]; exact List.dropWhile_suffix isWS
      have hgl : (x :: xs).getLast? = (s.dropWhile isWS).reverse.getLast? :=
        getLast?_of_suffix hsuf (by simp)
      rw [hgl, List.getLast?_reverse] at hc
      exact head?_fails_of_dropWhile isWS s c hc
  · intro c hc
    unfold jsTrim at hc
    rw [List.getLast?_reverse] at hc
    exact head?_fails_of_dropWhile isWS _ c hc

theorem jsTrim_eq_nil_of_allWS {s : Str} (h : ∀ c ∈ s, isWS c = true) :
    jsTrim s = [] := by
  unfold jsTrim
  have h1 : s.dropWhile isWS = [] := by
    rw [List.dropWhile_eq_nil_iff]; exact h
  rw [h1]
  rfl

theorem jsTrim_lowerStr_of_trimmed {s : Str} (h : jsTrim s = s) :
    jsTrim (lowerStr s) = lowerStr s := by
  rw [jsTrim_eq_self_iff] at h ⊢
  obtain ⟨h1, h2⟩ := h
  constructor
  · intro c hc
    unfold lowerStr at hc
    rw [List.head?_map] at hc
    cases hh : s.head? with
    | none => rw [hh] at hc; simp at hc
    | some d =>
      rw [hh] at hc
      simp at hc
      rw [← hc, isWS_lowerC]
      exact h1 d (by rw [hh]; rfl)
  · intro c hc
    unfold lowerStr at hc
    rw [List.getLast?_map] at hc
    cases hh : s.getLast? with
    | none => rw [hh] at hc; simp at hc
    | some d =>
      rw [hh] at hc
      simp at hc
      rw [← hc, isWS_lowerC]
      exact h2 d (by rw [hh]; rfl)

/-! ### A small JavaScript regular-expression engine

Supports exactly the constructs used by this repository's patterns: literals,
character classes, concatenation, ordered alternation, greedy and lazy
counted repetition, one capturing group, word boundaries and the `$` anchor,
with the `i` flag.  `mrun` is a fuel-indexed backtracking matcher in
continuation-passing style; the fuel only bounds recursion depth, and
`matchAll` mirrors the iteration protocol of JavaScript `String.matchAll`
for a `g`-flagged pattern (resume at the match end, advance by one on an
empty match). -/

inductive RE where
  | eps : RE
  | lit : Char → RE
  | cls : List (Nat × Nat) → RE
  | seq : RE → RE → RE
  | alt : RE → RE → RE
  | rep : RE → Nat → Option Nat → Bool → RE
  | grp : RE → RE
  | wb : RE
  | eos : RE
deriving DecidableEq

def reSize : RE → Nat
  | .seq a b => reSize a + reSize b + 1
  | .alt a b => reSize a + reSize b + 1
  | .rep a _ _ _ => reSize a + 2
  | .grp a => reSize a + 1
  | _ => 1

def charEqCI (ci : Bool) (p c : Char) : Bool :=
  p = c || (ci && decide (lowerC p = lowerC c))

def clsMatch (ci : Bool) (rs : List (Nat × Nat)) (c : Char) : Bool :=
  inRanges rs c || (ci && (inRanges rs (lowerC c) || inRanges rs (upperC c)))

def isWordChar (c : Char) : Bool :=
  inRanges [(48, 57), (65, 90), (97, 122), (95, 95)] c

def wordAt (t : Str) (i : Nat) : Bool :=
  match t.get? i with
  | some c => isWordChar c
  | none => false

def wbAt (t : Str) (i : Nat) : Bool :=
  (if i = 0 then false else wordAt t (i - 1)) != wordAt t i

structure MatchRes where
  stop : Nat
  cap : Option (Nat × Nat)
deriving DecidableEq

def mrun (t : Str) (ci : Bool) :
    Nat → RE → Nat → Option (Nat × Nat) →
    (Nat → Option (Nat × Nat) → Option MatchRes) → Option MatchRes
  | 0, _, _, _, _ => none
  | fuel + 1, re, i, cap, k =>
    match re with
    | .eps => k i cap
    | .lit p =>
      match t.get? i with
      | some c => if charEqCI ci p c then k (i + 1) cap else none
      | none => none
    | .cls rs =>
      match t.get? i with
      | some c => if clsMatch ci rs c then k (i + 1) cap else none
      | none => none
    | .seq a b => mrun t ci fuel a i cap (fun j cap2 => mrun t ci fuel b j cap2 k)
    | .alt a b =>
      match mrun t ci fuel a i cap k with
      | some r => some r
      | none => mrun t ci fuel b i cap k
    | .rep a lo hi lz =>
      match lo with
      | l + 1 =>
        mrun t ci fuel a i cap (fun j cap2 =>
          mrun t ci fuel (.rep a l (hi.map (· - 1)) lz) j cap2 k)
      | 0 =>
        if hi = some 0 then k i cap
        else if lz then
          match k i cap with
          | some r => some r
          | none =>
            mrun t ci fuel a i cap (fun j cap2 =>
              if j = i then none
              else mrun t ci fuel (.rep a 0 (hi.map (· - 1)) lz) j cap2 k)
        else
          match mrun t ci fuel a i cap (fun j cap2 =>
              if j = i then none
              else mrun t ci fuel (.rep a 0 (hi.map (· - 1)) lz) j cap2 k) with
          | some r => some r
          | none => k i cap
    | .grp a => mrun t ci fuel a i cap (fun j _ => k j (some (i, j)))
    | .wb => if wbAt t i then k i cap else none
    | .eos => if i = t.length then k i cap else none

def reFuel (re : RE) (n : Nat) : Nat := (reSize re + 4) * (n + 4) * 3

def matchAt (re : RE) (ci : Bool) (t : Str) (i : Nat) : Option MatchRes :=
  mrun t ci (reFuel re t.length) re i none (fun j cap => some ⟨j, cap⟩)

def execFromGo (re : RE) (ci : Bool) (t : Str) : Nat → Nat → Option (Nat × MatchRes)
  | 0, _ => none
  | n + 1, s =>
    match matchAt re ci t s with
    | some r => some (s, r)
    | none => execFromGo re ci t n (s + 1)

def execFrom (re : RE) (ci : Bool) (t : Str) (s : Nat) : Option (Nat × MatchRes) :=
  execFromGo re ci t (t.length + 1 - s) s

/-- JavaScript `RegExp.prototype.test`. -/
def reTest (re : RE) (ci : Bool) (t : Str) : Bool := (execFrom re ci t 0).isSome

def matchAllGo (re : RE) (ci : Bool) (t : Str) : Nat → Nat → List (Nat × MatchRes)
  | 0, _ => []
  | n + 1, pos =>
    match execFrom re ci t pos with
    | none => []
    | some (s, r) =>
      (s, r) :: matchAllGo re ci t n (if s < r.stop then r.stop else s + 1)

/-- JavaScript `String.prototype.matchAll` for a `g`-flagged pattern:
the returned triples are (match start, match end, capture-group-1 span). -/
def matchAll (re : RE) (ci : Bool) (t : Str) : List (Nat × MatchRes) :=
  matchAllGo re ci t (t.length + 1) 0

/-- The text slice `t[a..b)`; every reported capture is such a slice of the
subject text. -/
def sliceStr (t : Str) (a b : Nat) : Str := (t.drop a).take (b - a)

theorem mem_of_mem_slice (t : Str) (a b : Nat) : ∀ c ∈ sliceStr t a b, c ∈ t := by
  intro c hc
  unfold sliceStr at hc
  exact List.drop_subset a t (List.take_subset _ _ hc)

def rcat : List RE → RE
  | [] => .eps
  | [r] => r
  | r :: rs => .seq r (rcat rs)

def ralt : List RE → RE
  | [] => .eps
  | [r] => r
  | r :: rs => .alt r (ralt rs)

def rstr (s : String) : RE := rcat (s.data.map RE.lit)

def ropt (r : RE) : RE := .rep r 0 (some 1) false

def rstar (r : RE) : RE := .rep r 0 none false

def rplus (r : RE) : RE := .rep r 1 none false

def rplusLazy (r : RE) : RE := .rep r 1 none true

def wsCls : RE := .cls wsCodes

def digitCls : RE := .cls [(48, 57)]

/-! ### The deterministic extractor (part_001)

Character classes and the `PATTERNS` / `KEYWORDS` / `GENERIC_FILTERS` tables,
transcribed from the source, then `extractStructuredData` with its inner
helpers (`extract`, `cleanExtractedValue`, `filterGenericWords`,
`removeSubstringDuplicates`). -/

def alphaRanges : List (Nat × Nat) := [(97, 122), (65, 90)]

def capRange : List (Nat × Nat) := [(65, 90)]

def alphaWsCommaRanges : List (Nat × Nat) := alphaRanges ++ wsCodes ++ [(44, 44)]

def alphaWsRanges : List (Nat × Nat) := alphaRanges ++ wsCodes

def dateValRanges : List (Nat × Nat) :=
  alphaRanges ++ [(48, 57)] ++ wsCodes ++ [(44, 44), (47, 47), (45, 45)]

def apostAlphaWsRanges : List (Nat × Nat) := alphaRanges ++ [(39, 39)] ++ wsCodes

def slashDashRanges : List (Nat × Nat) := [(47, 47), (45, 45)]

def p_interests_1 : RE := rcat [
  ralt [rcat [rstr (r"like"), ropt (.lit 's')],
        rcat [rstr (r"love"), ropt (.lit 's')],
        rcat [rstr (r"enjoy"), ropt (.lit 's')],
        rstr (r"into"),
        rstr (r"interested in"),
        rstr (r"passionate about"),
        rstr (r"obsessed with"),
        rstr (r"fan of"),
        rcat [rstr (r"really like"), ropt (.lit 's')]],
  rplus wsCls,
  .grp (rplusLazy (.cls alphaWsCommaRanges)),
  ralt [rcat [rplus wsCls,
              ralt [rstr (r"a lot"), rstr (r"so much"), rstr (r"too"),
                    rstr (r"and"), rstr (r"but"), rstr (r".")]],
        .eos]]

def p_interests_2 : RE := rcat [
  ralt [rstr (r"hobby"), rstr (r"hobbies"), rstr (r"passion"), rstr (r"pastime")],
  ropt (rcat [rplus wsCls, ralt [rstr (r"is"), rstr (r"are"), rstr (r"include")]]),
  rstar wsCls, ropt (.lit ':'), rstar wsCls,
  .grp (rplusLazy (.cls alphaWsCommaRanges)),
  ralt [rcat [rplus wsCls, ralt [rstr (r"and"), rstr (r"but"), rstr (r".")]], .eos]]

def p_interests_3 : RE := rcat [
  ralt [rstr (r"playing"), rstr (r"watching"), rstr (r"doing"), rstr (r"practicing"),
        rstr (r"learning"), rstr (r"studying"), rstr (r"collecting")],
  rplus wsCls,
  .grp (rplusLazy (.cls alphaWsRanges)),
  ralt [rcat [rplus wsCls,
              ralt [rstr (r"a lot"), rstr (r"often"), rstr (r"regularly"),
                    rstr (r"and"), rstr (r"but"), rstr (r".")]],
        .eos]]

def p_dates_1 : RE := rcat [
  ralt [rstr (r"birthday"), rstr (r"anniversary"), rstr (r"wedding"),
        rstr (r"graduation"), rstr (r"deadline"), rstr (r"event"), rstr (r"meeting"),
        rstr (r"appointment"), rstr (r"celebration")],
  ropt (rcat [rplus wsCls, ralt [rstr (r"on"), rstr (r"is"), rstr (r"at"), rstr (r"in")]]),
  rstar wsCls,
  .grp (rplusLazy (.cls dateValRanges)),
  ralt [rcat [rplus wsCls, ralt [rstr (r"and"), rstr (r"but"), rstr (r".")]], .eos]]

def p_dates_2 : RE := rcat [
  ralt [rstr (r"on"), rstr (r"scheduled for"), rstr (r"happening on"),
        rstr (r"taking place on")],
  rplus wsCls,
  .grp (rcat [.cls capRange, rplus (.cls alphaRanges), rplus wsCls,
              .rep digitCls 1 (some 2) false,
              ropt (ralt [rstr (r"st"), rstr (r"nd"), rstr (r"rd"), rstr (r"th")]),
              ropt (rcat [ropt (.lit ','), rplus wsCls, .rep digitCls 4 (some 4) false])])]

def p_dates_3 : RE := rcat [
  .wb,
  .grp (rcat [.rep digitCls 1 (some 2) false, .cls slashDashRanges,
              .rep digitCls 1 (some 2) false,
              ropt (rcat [.cls slashDashRanges, .rep digitCls 2 (some 4) false])]),
  .wb]

def p_dates_4 : RE := rcat [
  ralt [rstr (r"tomorrow"),
        rcat [rstr (r"next "),
              ralt [rstr (r"week"), rstr (r"month"), rstr (r"monday"), rstr (r"tuesday"),
                    rstr (r"wednesday"), rstr (r"thursday"), rstr (r"friday"),
                    rstr (r"saturday"), rstr (r"sunday")]],
        rcat [rstr (r"this "),
              ralt [rstr (r"weekend"), rstr (r"week"), rstr (r"month")]]],
  .wb]

def p_places_1 : RE := rcat [
  ralt [rstr (r"restaurant"), rstr (r"cafe"), rstr (r"club"), rstr (r"pub"),
        rstr (r"bistro"), rstr (r"diner"), rstr (r"eatery")],
  ropt (ralt [rcat [rplus wsCls, rstr (r"called")], rstr (r" named")]),
  rstar wsCls, ropt (.lit ':'), rstar wsCls,
  .grp (rcat [.cls capRange, rplusLazy (.cls apostAlphaWsRanges)]),
  ralt [rcat [rplus wsCls,
              ralt [rstr (r"on"), rstr (r"in"), rstr (r"at"), rstr (r"and"),
                    rstr (r"but"), rstr (r".")]],
        .eos]]

def p_places_2 : RE := rcat [
  ralt [rcat [rstr (r"go"), ropt (rstr (r"ing")), rstr (r" to")],
        rcat [rstr (r"visit"), ropt (rstr (r"ing"))],
        rstr (r"heading to"), rstr (r"went to"), rstr (r"been to"),
        rstr (r"wanna go to"), rstr (r"want to go to")],
  rplus wsCls,
  .grp (rcat [.cls capRange, rplusLazy (.cls apostAlphaWsRanges)]),
  ralt [rcat [rplus wsCls,
              ralt [rstr (r"on"), rstr (r"in"), rstr (r"for"), rstr (r"and"),
                    rstr (r"but"), rstr (r"last"), rstr (r"next"), rstr (r"this"),
                    rstr (r".")]],
        .eos]]

def p_places_3 : RE := rcat [
  ralt [rstr (r"location"), rstr (r"place"), rstr (r"venue"), rstr (r"city"),
        rstr (r"country"), rstr (r"town"), rstr (r"neighborhood"), rstr (r"area"),
        rstr (r"spot")],
  rstar wsCls, ropt (.lit ':'), rstar wsCls,
  .grp (rcat [.cls capRange, rplusLazy (.cls alphaWsRanges)]),
  ralt [rcat [rplus wsCls, ralt [rstr (r"and"), rstr (r"but"), rstr (r".")]], .eos]]

def PATTERNS_interests : List RE := [p_interests_1, p_interests_2, p_interests_3]

def PATTERNS_importantDates : List RE := [p_dates_1, p_dates_2, p_dates_3, p_dates_4]

def PATTERNS_places : List RE := [p_places_1, p_places_2, p_places_3]

def KEYWORDS_interests : List Str :=
  [ls (r"sushi"), ls (r"coffee"), ls (r"gaming"), ls (r"reading"), ls (r"travel"),
   ls (r"music"), ls (r"sports"), ls (r"cooking"), ls (r"photography"),
   ls (r"hiking"), ls (r"running"), ls (r"yoga"), ls (r"meditation"),
   ls (r"painting"), ls (r"drawing"), ls (r"writing"), ls (r"dancing"),
   ls (r"singing"), ls (r"cycling"), ls (r"swimming"), ls (r"skiing"),
   ls (r"surfing"), ls (r"climbing"), ls (r"camping"), ls (r"fishing"),
   ls (r"gardening"), ls (r"movies"), ls (r"films"), ls (r"cinema"),
   ls (r"theater"), ls (r"theatre"), ls (r"concerts"), ls (r"festivals"),
   ls (r"anime"), ls (r"manga"), ls (r"podcasts"), ls (r"audiobooks"),
   ls (r"netflix"), ls (r"streaming"), ls (r"tv shows"), ls (r"series"),
   ls (r"coding"), ls (r"programming"), ls (r"design"), ls (r"woodworking"),
   ls (r"crafts"), ls (r"knitting"), ls (r"pottery"), ls (r"sculpting"),
   ls (r"tech"), ls (r"gadgets"), ls (r"electronics"), ls (r"robotics"),
   ls (r"drones"), ls (r"wine"), ls (r"beer"), ls (r"cocktails"), ls (r"tea"),
   ls (r"chocolate"), ls (r"baking"), ls (r"grilling"), ls (r"bbq"),
   ls (r"fashion"), ls (r"shopping"), ls (r"makeup"), ls (r"skincare"),
   ls (r"fitness"), ls (r"gym"), ls (r"weightlifting"), ls (r"chess"),
   ls (r"puzzles"), ls (r"board games"), ls (r"video games"), ls (r"history"),
   ls (r"science"), ls (r"astronomy"), ls (r"languages")]

def KEYWORDS_importantDates : List Str :=
  [ls (r"birthday"), ls (r"anniversary"), ls (r"wedding"), ls (r"graduation"),
   ls (r"deadline"), ls (r"exam"), ls (r"test"), ls (r"appointment"),
   ls (r"meeting"), ls (r"conference"), ls (r"interview"), ls (r"reunion"),
   ls (r"party"), ls (r"celebration"), ls (r"vacation"), ls (r"trip"),
   ls (r"holiday"), ls (r"festival"), ls (r"concert date"), ls (r"show"),
   ls (r"performance")]

def KEYWORDS_places : List Str :=
  [ls (r"restaurant"), ls (r"cafe"), ls (r"coffee shop"), ls (r"bar"), ls (r"club"),
   ls (r"pub"), ls (r"bistro"), ls (r"diner"), ls (r"bakery"), ls (r"gym"),
   ls (r"park"), ls (r"library"), ls (r"museum"), ls (r"gallery"), ls (r"theater"),
   ls (r"cinema"), ls (r"mall"), ls (r"market"), ls (r"office"), ls (r"home"),
   ls (r"school"), ls (r"university"), ls (r"hospital"), ls (r"airport"),
   ls (r"station"), ls (r"tokyo"), ls (r"paris"), ls (r"london"), ls (r"new york"),
   ls (r"nyc"), ls (r"los angeles"), ls (r"la"), ls (r"chicago"), ls (r"miami"),
   ls (r"boston"), ls (r"seattle"), ls (r"portland"), ls (r"austin"),
   ls (r"denver"), ls (r"san francisco"), ls (r"sf"), ls (r"rome"),
   ls (r"barcelona"), ls (r"madrid"), ls (r"berlin"), ls (r"amsterdam"),
   ls (r"dubai"), ls (r"singapore"), ls (r"hong kong"), ls (r"sydney"),
   ls (r"melbourne"), ls (r"toronto"), ls (r"vancouver"), ls (r"montreal"),
   ls (r"downtown"), ls (r"uptown"), ls (r"midtown"), ls (r"suburb"),
   ls (r"beach"), ls (r"mountain"), ls (r"lake"), ls (r"river")]

/-- One word of the keyword pattern body: `keywordLower.replace(/\s+/g, "\\s+")`,
i.e. literal characters with each maximal whitespace run replaced by `\s+`. -/
def kwBody : Str → List RE
  | [] => []
  | [c] => [if isWS c then rplus wsCls else .lit c]
  | c :: d :: rest =>
    if isWS c && isWS d then kwBody (d :: rest)
    else (if isWS c then rplus wsCls else .lit c) :: kwBody (d :: rest)

/-- The per-keyword test pattern built by the source:
`new RegExp("\\b" + keywordLower.replace(/\s+/g, "\\s+") + "\\b", "i")`. -/
def keywordRE (kwLower : Str) : RE := rcat ([RE.wb] ++ kwBody kwLower ++ [RE.wb])

/-- JavaScript `String.prototype.split(" ")` (single-character separator). -/
def splitChar (sep : Char) : Str → List Str
  | [] => [[]]
  | c :: rest =>
    if c = sep then [] :: splitChar sep rest
    else
      match splitChar sep rest with
      | [] => [[c]]
      | w :: ws => (c :: w) :: ws

def capitalizeWord : Str → Str
  | [] => []
  | c :: rest => upperC c :: rest

def joinSpace : List Str → Str
  | [] => []
  | [w] => w
  | w :: ws => w ++ ' ' :: joinSpace ws

/-- Keyword display formatting from the source: split on single spaces,
capitalize each word's first character, re-join with spaces. -/
def titleCaseKeyword (kw : Str) : Str :=
  joinSpace ((splitChar ' ' kw).map capitalizeWord)

/-- An insertion-ordered string map, as JavaScript `Map<string, string>`. -/
abbrev OMap := List (Str × Str)

def mhas (m : OMap) (k : Str) : Bool := m.any (fun e => decide (e.1 = k))

def mset (m : OMap) (k v : Str) : OMap := m ++ [(k, v)]

def mlookup (m : OMap) (k : Str) : Option Str :=
  (m.find? (fun e => decide (e.1 = k))).map (fun e => e.2)

def mvalues (m : OMap) : List Str := m.map (fun e => e.2)

structure ExtractedItem where
  value : Str
deriving DecidableEq

/-- The body of the regex loop of `extract`: handle one `matchAll` result.
`match[1]?.trim()` is the trimmed capture slice; it is kept when longer than
one character and its cleaned form is nonempty and not already present. -/
def insertCapture (text : Str) (m : OMap) (mr : Nat × MatchRes) : OMap :=
  match mr.2.cap with
  | none => m
  | some g =>
    let captured := jsTrim (sliceStr text g.1 g.2)
    if 1 < captured.length then
      let cleaned := cleanExtractedValue captured
      if cleaned ≠ [] then
        let key := lowerStr cleaned
        if mhas m key then m else mset m key cleaned
      else m
    else m

def regexPassOne (text : Str) (p : RE) (m : OMap) : OMap :=
  (matchAll p true text).foldl (insertCapture text) m

/-- The first loop of `extract`: all patterns, in order, over the original
text. -/
def regexPass (text : Str) (pats : List RE) (m : OMap) : OMap :=
  pats.foldl (fun m p => regexPassOne text p m) m

/-- The body of the keyword loop of `extract`. -/
def keywordStep (normalized : Str) (m : OMap) (kw : Str) : OMap :=
  let kwLower := lowerStr kw
  if reTest (keywordRE kwLower) true normalized then
    if mhas m kwLower then m else mset m kwLower (titleCaseKeyword kw)
  else m

/-- The second loop of `extract`: keywords tested against the lowercased,
trimmed text. -/
def keywordPass (normalized : Str) (kws : List Str) (m : OMap) : OMap :=
  kws.foldl (keywordStep normalized) m

def extractMap (text : Str) (pats : List RE) (kws : List Str) : OMap :=
  keywordPass (jsTrim (lowerStr text)) kws (regexPass text pats [])

/-- `extract` from part_001: ordered map values wrapped as items. -/
def extract (text : Str) (pats : List RE) (kws : List Str) : List ExtractedItem :=
  (mvalues (extractMap text pats kws)).map ExtractedItem.mk

def filterGenericWords (items : List ExtractedItem) (genericWords : List Str) :
    List ExtractedItem :=
  items.filter (fun item => !decide (lowerStr item.value ∈ genericWords.map lowerStr))

/-- Stable insertion into a list sorted by ascending value length; folding it
over the input models the stable JavaScript
`sort((a, b) => a.value.length - b.value.length)`. -/
def insLen (x : ExtractedItem) : List ExtractedItem → List ExtractedItem
  | [] => [x]
  | y :: ys => if y.value.length < x.value.length then y :: insLen x ys else x :: y :: ys

def sortByLen (l : List ExtractedItem) : List ExtractedItem := l.foldr insLen []

/-- The acceptance condition of `removeSubstringDuplicates` for the next
(length-sorted) item against the already kept ones. -/
def rsdKeep (res : List ExtractedItem) (item : ExtractedItem) : Bool :=
  let itemLower := jsTrim (lowerStr item.value)
  let hasSubstring := res.any (fun e =>
    let el := jsTrim (lowerStr e.value)
    decide (el ≠ itemLower) && decide (el <:+: itemLower))
  !hasSubstring && !res.any (fun r => decide (lowerStr r.value = itemLower))

def rsdGo : List ExtractedItem → List ExtractedItem → List ExtractedItem
  | [], res => res
  | item :: rest, res =>
    if rsdKeep res item then rsdGo rest (res ++ [item]) else rsdGo rest res

def removeSubstringDuplicates (items : List ExtractedItem) : List ExtractedItem :=
  if items.length ≤ 1 then items else rsdGo (sortByLen items) []

def GENERIC_FILTERS_places : List Str :=
  [ls (r"a lot"), ls (r"so much"), ls (r"often"), ls (r"regularly"),
   ls (r"sometimes"), ls (r"usually"), ls (r"restaurant"), ls (r"cafe"),
   ls (r"bar"), ls (r"place"), ls (r"location"), ls (r"venue"), ls (r"city"),
   ls (r"area")]

def GENERIC_FILTERS_interests : List Str :=
  [ls (r"a lot"), ls (r"so much"), ls (r"too"), ls (r"really"), ls (r"very")]

structure ExtractResponse where
  interests : List ExtractedItem
  importantDates : List ExtractedItem
  places : List ExtractedItem
  notes : List ExtractedItem
deriving DecidableEq

/-- `extractStructuredData` from part_001. -/
def extractStructuredData (text : Str) : ExtractResponse :=
  let rawInterests := extract text PATTERNS_interests KEYWORDS_interests
  let rawDates := extract text PATTERNS_importantDates KEYWORDS_importantDates
  let rawPlaces := extract text PATTERNS_places KEYWORDS_places
  { interests :=
      removeSubstringDuplicates (filterGenericWords rawInterests GENERIC_FILTERS_interests)
    importantDates := removeSubstringDuplicates rawDates
    places :=
      removeSubstringDuplicates (filterGenericWords rawPlaces GENERIC_FILTERS_places)
    notes := [⟨text⟩] }

/-! ### A small JSON value model

The external service replies with JSON; the service code inspects it with
JavaScript truthiness, `typeof`, `Array.isArray`, strict string equality and
`String(...)` coercion, all embedded below.  Numbers are modelled as integers
(no fact-validation step in the sources inspects a fractional value). -/

inductive Json where
  | null : Json
  | bool : Bool → Json
  | num : Int → Json
  | str : Str → Json
  | arr : List Json → Json
  | obj : List (Str × Json) → Json

/-- Strict equality `v === "lit"` between a possibly-undefined value and a
string literal. -/
def isStrVal (v : Option Json) (lit : Str) : Bool :=
  match v with
  | some (.str t) => decide (t = lit)
  | _ => false

/-- Property read `x[k]` for our value model: `none` plays undefined. -/
def jsGet : Json → Str → Option Json
  | .obj fields, k => (fields.find? (fun e => decide (e.1 = k))).map (fun e => e.2)
  | _, _ => none

/-- JavaScript truthiness of a possibly-undefined value. -/
def jsTruthy : Option Json → Bool
  | none => false
  | some .null => false
  | some (.bool b) => b
  | some (.num n) => decide (n ≠ 0)
  | some (.str s) => decide (s ≠ [])
  | some (.arr _) => true
  | some (.obj _) => true

/-- `typeof x === "object"` (true for null, arrays and plain objects). -/
def isObjectTypeOf : Json → Bool
  | .null => true
  | .arr _ => true
  | .obj _ => true
  | _ => false

mutual

/-- JavaScript `String(x)` coercion. -/
def jsToString : Json → Str
  | .null => ls (r"null")
  | .bool true => ls (r"true")
  | .bool false => ls (r"false")
  | .num n => ls (toString n)
  | .str s => s
  | .arr xs => jsArrToString xs
  | .obj _ => ls (r"[object Object]")

def jsArrToString : List Json → Str
  | [] => []
  | [x] => jsToString x
  | x :: xs => jsToString x ++ ',' :: jsArrToString xs

end

/-- JavaScript `s.includes(sub)`: contiguous substring containment. -/
def jsIncludes (s sub : Str) : Bool := decide (sub <:+: s)

/-! ### The model-backed chunked extractor (src/backend/src/services/ai.service.ts) -/

/-- The per-record validation filter of `extractFactsFromSingleChunk`:
reject non-objects, records with a falsy or literal-"null" type or value,
records with a falsy source text, and records whose source text is not a
verbatim substring of the chunk (the hallucination guard). -/
def factOk (chunk : Str) (f : Json) : Bool :=
  jsTruthy (some f) && isObjectTypeOf f &&
  jsTruthy (jsGet f (ls (r"type"))) && jsTruthy (jsGet f (ls (r"value"))) &&
  jsTruthy (jsGet f (ls (r"source_text"))) &&
  !isStrVal (jsGet f (ls (r"value"))) (ls (r"null")) &&
  !isStrVal (jsGet f (ls (r"type"))) (ls (r"null")) &&
  jsIncludes chunk (jsToString ((jsGet f (ls (r"source_text"))).getD .null))

/-- The `facts` array of the parsed reply: `Array.isArray(parsedRaw.facts) ?
parsedRaw.facts : []`. -/
def factsArray (parsed : Json) : List Json :=
  match jsGet parsed (ls (r"facts")) with
  | some (.arr xs) => xs
  | _ => []

/-- `extractFactsFromSingleChunk`, parameterized over the outcome of
`JSON.parse(response.message.content)`: `none` models a parse exception,
which the function catches, returning no facts for that chunk. -/
def extractFactsFromSingleChunk (chunk : Str) (parsed : Option Json) : List Json :=
  match parsed with
  | none => []
  | some j => (factsArray j).filter (factOk chunk)

/-- Sentence split `normalized.split(/(?<=[.!?])\s+/)`: the input is always
whitespace-collapsed here, so each separator run is a single space preceded
by sentence punctuation.  The accumulator holds the current fragment
reversed. -/
def splitSentGo : Str → Str → List Str
  | acc, [] => [acc.reverse]
  | acc, c :: rest =>
    if isWS c &&
        (match acc with
         | p :: _ => decide (p = '.') || decide (p = '!') || decide (p = '?')
         | [] => false) then
      acc.reverse :: splitSentGo [] rest
    else splitSentGo (c :: acc) rest

def splitSentences (s : Str) : List Str := splitSentGo [] s

/-- The long-sentence separator
`/\s*(?:,|;|\band\b|\bbut\b|\bthen\b|\balso\b)\s*/i`. -/
def delimRE : RE := rcat [
  rstar wsCls,
  ralt [.lit ',', .lit ';',
        rcat [.wb, rstr (r"and"), .wb],
        rcat [.wb, rstr (r"but"), .wb],
        rcat [.wb, rstr (r"then"), .wb],
        rcat [.wb, rstr (r"also"), .wb]],
  rstar wsCls]

def cutGo (s : Str) (pos : Nat) : List (Nat × Nat) → List Str
  | [] => [sliceStr s pos s.length]
  | (a, b) :: rest => sliceStr s pos a :: cutGo s b rest

/-- JavaScript `String.prototype.split` with a regex separator (our separators
never match the empty string, so the split points are exactly the `matchAll`
spans). -/
def jsSplitRE (re : RE) (s : Str) : List Str :=
  cutGo s 0 ((matchAll re true s).map (fun m => (m.1, m.2.stop)))

/-- The fragment re-merge loop of `chunkTextForExtraction` (rejoin parts while
the running candidate stays under 80 characters). -/
def mergeGo : List Str → Str → List Str
  | [], buf => if buf ≠ [] then [buf] else []
  | p :: ps, buf =>
    let candidate := if buf ≠ [] then buf ++ ' ' :: p else p
    if candidate.length < 80 then mergeGo ps candidate
    else (if buf ≠ [] then [buf] else []) ++ mergeGo ps p

def chunkOneSentence (s : Str) : List Str :=
  if s.length ≤ 180 then [s]
  else mergeGo (((jsSplitRE delimRE s).map jsTrim).filter (fun p => p ≠ [])) []

/-- `chunkTextForExtraction` from ai.service.ts. -/
def chunkTextForExtraction (text : Str) : List Str :=
  let normalized := jsTrim (collapseWS text)
  if normalized = [] then []
  else
    ((((splitSentences normalized).map jsTrim).filter (fun s => s ≠ [])).map
        chunkOneSentence).flatten.filter (fun c => 6 ≤ c.length)

/-- The cross-chunk dedup key: `${String(f.type || "").trim()}::${String(f.value
|| "").trim().toLowerCase()}` is modelled as the literal key string. -/
def dedupeTypePart (f : Json) : Str :=
  jsTrim (jsToString (if jsTruthy (jsGet f (ls (r"type"))) then
    (jsGet f (ls (r"type"))).getD .null else .str []))

def dedupeValuePart (f : Json) : Str :=
  lowerStr (jsTrim (jsToString (if jsTruthy (jsGet f (ls (r"value"))) then
    (jsGet f (ls (r"value"))).getD .null else .str [])))

def dedupeKey (f : Json) : Str :=
  dedupeTypePart f ++ ls (r"::") ++ dedupeValuePart f

def dedupeGo : List Json → List Str → List Json
  | [], _ => []
  | f :: rest, seen =>
    if dedupeTypePart f = [] ∨ dedupeValuePart f = [] then dedupeGo rest seen
    else if dedupeKey f ∈ seen then dedupeGo rest seen
    else f :: dedupeGo rest (dedupeKey f :: seen)

/-- `dedupeFacts` from ai.service.ts: first occurrence of each key wins. -/
def dedupeFacts (facts : List Json) : List Json := dedupeGo facts []

structure AIPayload where
  facts : List Json

structure AIResult where
  intent : Str
  payload : AIPayload
  confidence : Nat
  needs_clarification : Bool

/-- `extractFactsFromText` from ai.service.ts, parameterized over the
per-chunk parsed replies of the external service (`oracle c` is the outcome
of `JSON.parse` on the reply for chunk `c`; `none` models an unparseable
reply). -/
def extractFactsFromText (text : Str) (oracle : Str → Option Json) : AIResult :=
  let chunks := chunkTextForExtraction text
  ⟨ls (r"extraction"),
   ⟨dedupeFacts ((chunks.map (fun c => extractFactsFromSingleChunk c (oracle c))).flatten)⟩,
   1, false⟩

/-! ### Deterministic re-classification (ai.service.ts `DATE_PATTERNS`,
`PLACE_PATTERNS`, `INTEREST_PATTERNS`, `validateAndCorrectFactType`) -/

def svcDateKeywords : RE := rcat [.wb,
  .grp (ralt [rstr (r"birthday"), rstr (r"bday"), rstr (r"b-day"), rstr (r"born"),
        rstr (r"anniversary"), rstr (r"wedding"), rstr (r"deadline"),
        rstr (r"due date"), rstr (r"appointment"),
        rcat [rstr (r"meet"), ropt (rstr (r"ing"))], rstr (r"interview")]),
  .wb]

def svcMonthWord : RE := rcat [.wb,
  .grp (ralt [rstr (r"january"), rstr (r"february"), rstr (r"march"), rstr (r"april"),
        rstr (r"may"), rstr (r"june"), rstr (r"july"), rstr (r"august"),
        rstr (r"september"), rstr (r"october"), rstr (r"november"), rstr (r"december"),
        rstr (r"jan"), rstr (r"feb"), rstr (r"mar"), rstr (r"apr"), rstr (r"jun"),
        rstr (r"jul"), rstr (r"aug"), rstr (r"sep"), rstr (r"sept"), rstr (r"oct"),
        rstr (r"nov"), rstr (r"dec")]),
  .wb]

/-- The month alternation with optional long suffixes shared by the
month-with-day and day-with-month patterns. -/
def monthOptRE : RE := ralt [
  rcat [rstr (r"jan"), ropt (rstr (r"uary"))],
  rcat [rstr (r"feb"), ropt (rstr (r"ruary"))],
  rcat [rstr (r"mar"), ropt (rstr (r"ch"))],
  rcat [rstr (r"apr"), ropt (rstr (r"il"))],
  rstr (r"may"),
  rcat [rstr (r"jun"), ropt (rstr (r"e"))],
  rcat [rstr (r"jul"), ropt (rstr (r"y"))],
  rcat [rstr (r"aug"), ropt (rstr (r"ust"))],
  rcat [rstr (r"sep"), ropt (rcat [rstr (r"t"), ropt (rstr (r"ember"))])],
  rcat [rstr (r"oct"), ropt (rstr (r"ober"))],
  rcat [rstr (r"nov"), ropt (rstr (r"ember"))],
  rcat [rstr (r"dec"), ropt (rstr (r"ember"))]]

def dayOrdinalRE : RE := ropt (ralt [rstr (r"st"), rstr (r"nd"), rstr (r"rd"), rstr (r"th")])

def svcMonthWithDay : RE := rcat [.wb, monthOptRE, rplus wsCls,
  .rep digitCls 1 (some 2) false, dayOrdinalRE, .wb]

def svcDayWithMonth : RE := rcat [.wb, .rep digitCls 1 (some 2) false, dayOrdinalRE,
  rplus wsCls, ropt (rcat [rstr (r"of"), rplus wsCls]), monthOptRE, .wb]

def svcNumericDate : RE := rcat [.wb,
  .grp (ralt [
    rcat [.rep digitCls 4 (some 4) false, .lit '-', .rep digitCls 2 (some 2) false,
          .lit '-', .rep digitCls 2 (some 2) false],
    rcat [.rep digitCls 1 (some 2) false, .lit '/', .rep digitCls 1 (some 2) false,
          ropt (rcat [.lit '/', .rep digitCls 2 (some 4) false])]]),
  .wb]

def svcPlaceVerbs : RE := rcat [.wb,
  .grp (ralt [rstr (r"went to"), rstr (r"visited"), rstr (r"traveled to"),
        rstr (r"travelled to"), rstr (r"lives in"), rstr (r"from"),
        rstr (r"works at"), rstr (r"moved to"), rstr (r"based in"), rstr (r"in")]),
  .wb]

def svcInterestVerbs : RE := rcat [.wb,
  .grp (ralt [rstr (r"likes"), rstr (r"like"), rstr (r"enjoys"), rstr (r"enjoy"),
        rstr (r"loves"), rstr (r"love"), rstr (r"plays"), rstr (r"play"),
        rstr (r"favorite"), rstr (r"favourite"), rstr (r"interested in"),
        rstr (r"passionate about")]),
  .wb]

/-- The `hasDate` disjunction of `validateAndCorrectFactType`: explicit date
keyword, numeric or ISO date, month-with-day, day-with-month, or a month name
accompanied by a date keyword. -/
def hasDateIndicator (text : Str) : Bool :=
  reTest svcDateKeywords true text ||
  reTest svcNumericDate true text ||
  reTest svcMonthWithDay true text ||
  reTest svcDayWithMonth true text ||
  (reTest svcMonthWord true text && reTest svcDateKeywords true text)

def hasPlaceVerb (text : Str) : Bool := reTest svcPlaceVerbs true text

def hasInterestVerb (text : Str) : Bool := reTest svcInterestVerbs true text

/-- `allowed.has(fact.type)`: the guard set of the four valid type labels. -/
def isAllowedType (v : Option Json) : Bool :=
  isStrVal v (ls (r"interest")) || isStrVal v (ls (r"important_date")) ||
  isStrVal v (ls (r"place")) || isStrVal v (ls (r"note"))

/-- `validateAndCorrectFactType` from ai.service.ts.  The effective text is
`(fact.source_text || fact.value || "").toLowerCase()`; if that expression is
a truthy non-string, `toLowerCase` raises a TypeError (modelled as `none`).
An invalid declared type short-circuits to "note"; otherwise the category is
re-derived with the fixed date > place > interest > note priority. -/
def validateAndCorrectFactType (fact : Json) : Option Str :=
  let eff :=
    if jsTruthy (jsGet fact (ls (r"source_text"))) then
      (jsGet fact (ls (r"source_text"))).getD .null
    else if jsTruthy (jsGet fact (ls (r"value"))) then
      (jsGet fact (ls (r"value"))).getD .null
    else .str []
  match eff with
  | .str s =>
    let text := lowerStr s
    some (
      if ¬ isAllowedType (jsGet fact (ls (r"type"))) then ls (r"note")
      else if hasDateIndicator text then ls (r"important_date")
      else if hasPlaceVerb text then ls (r"place")
      else if hasInterestVerb text then ls (r"interest")
      else ls (r"note"))
  | _ => none

structure FrontendExtractedData where
  interests : List ExtractedItem
  importantDates : List ExtractedItem
  places : List ExtractedItem
  notes : List ExtractedItem
deriving DecidableEq

/-- The `switch (correctedType)` routing; unknown labels fall through to the
notes bucket together with "note". -/
def pushCategory (acc : FrontendExtractedData) (ty : Str) (item : ExtractedItem) :
    FrontendExtractedData :=
  if ty = ls (r"interest") then { acc with interests := acc.interests ++ [item] }
  else if ty = ls (r"important_date") then
    { acc with importantDates := acc.importantDates ++ [item] }
  else if ty = ls (r"place") then { acc with places := acc.places ++ [item] }
  else { acc with notes := acc.notes ++ [item] }

def transformGo : List Json → FrontendExtractedData → Option FrontendExtractedData
  | [], acc => some acc
  | f :: rest, acc =>
    if ¬ (jsTruthy (some f) && jsTruthy (jsGet f (ls (r"value")))) then
      transformGo rest acc
    else
      match validateAndCorrectFactType f, jsGet f (ls (r"value")) with
      | some ty, some (.str v) => transformGo rest (pushCategory acc ty ⟨jsTrim v⟩)
      | _, _ => none

/-- `transformToFrontendFormat` from ai.service.ts: skip falsy-valued records,
correct each record's type, trim its value, route it to its category bucket.
`none` models a TypeError escaping to the caller (non-string truthy value or
source text). -/
def transformToFrontendFormat (aiResult : AIResult) : Option FrontendExtractedData :=
  transformGo aiResult.payload.facts ⟨[], [], [], []⟩

/-! ### The part_006 model-backed extractor (ChatGPT-style entries variant) -/

def lbraceC : Char := Char.ofNat 123

def rbraceC : Char := Char.ofNat 125

/-- The `jsonContent.match(/\{[\s\S]*\}/)` span: greedy, so from the first
left brace to the last right brace, when that span is nonempty. -/
def braceSpan (s : Str) : Option Str :=
  match s.findIdx? (fun c => decide (c = lbraceC)) with
  | none => none
  | some i =>
    match s.reverse.findIdx? (fun c => decide (c = rbraceC)) with
    | none => none
    | some rj =>
      let j := s.length - 1 - rj
      if i < j then some (sliceStr s i (j + 1)) else none

namespace V6

def errMsg : Str := ls (r"AI returned invalid JSON")

/-- The repair of `parsed.payload.entries` against a truthy `parsed.payload`.
A missing or falsy `entries` is replaced by `[]`; a single object with `text`
and `categories` is wrapped into a one-element array; any other non-array
degrades to `[]`.  `none` models the strict-mode TypeError raised when the
code assigns a property on a primitive payload. -/
def repairPayload (p : Json) : Option (List Json) :=
  match p with
  | .obj _ =>
    match jsGet p (ls (r"entries")) with
    | some (.arr xs) => some xs
    | some (.obj pf) =>
      if jsTruthy (jsGet (.obj pf) (ls (r"text"))) &&
          jsTruthy (jsGet (.obj pf) (ls (r"categories"))) then
        some [.obj pf]
      else some []
    | some _ => some []
    | none => some []
  | .arr _ => some []
  | _ => none

/-- The defensive repair of the parsed reply.  A non-object primitive reply
makes the `parsed.payload = ...` assignment raise in strict mode (modelled as
`none`, which the caller converts into the domain error); an array reply
accepts the assignments and ends with no entries. -/
def repairEntries (parsed : Json) : Option (List Json) :=
  match parsed with
  | .obj _ =>
    if ¬ jsTruthy (jsGet parsed (ls (r"payload"))) then some []
    else
      match jsGet parsed (ls (r"payload")) with
      | some p => repairPayload p
      | none => some []
  | .arr _ => some []
  | _ => none

/-- The entry filter: drop non-objects, entries with falsy, literal-"null" or
blank text, and entries without a nonempty `categories` array.  A truthy
non-string `text` makes `entry.text.trim()` raise (modelled as `none`). -/
def filterEntries : List Json → Option (List Json)
  | [] => some []
  | e :: rest =>
    if ¬ (jsTruthy (some e) && isObjectTypeOf e) then filterEntries rest
    else if ¬ jsTruthy (jsGet e (ls (r"text"))) then filterEntries rest
    else
      match jsGet e (ls (r"text")) with
      | some (.str s) =>
        if s = ls (r"null") ∨ jsTrim s = [] then filterEntries rest
        else
          match jsGet e (ls (r"categories")) with
          | some (.arr []) => filterEntries rest
          | some (.arr (_ :: _)) => (filterEntries rest).map (e :: ·)
          | _ => filterEntries rest
      | _ => none

structure EntriesResult where
  entries : List Json

/-- `extractFactsFromText` from part_006 (second revision): extract a `{...}`
span from the reply when one exists, parse it, repair and filter the entries;
every failure inside the `try` block surfaces as the single domain error
`"AI returned invalid JSON"`.  `parse` stands for the JavaScript `JSON.parse`
builtin (`none` = exception); the returned record models the repaired
`parsed.payload.entries`. -/
def extractFactsFromText (parse : Str → Option Json) (content : Str) :
    Except Str EntriesResult :=
  let jsonContent := (braceSpan content).getD content
  match parse jsonContent with
  | none => .error errMsg
  | some parsed =>
    match repairEntries parsed with
    | none => .error errMsg
    | some entries0 =>
      match filterEntries entries0 with
      | none => .error errMsg
      | some entries => .ok ⟨entries⟩

end V6

/-! ### The POST /extract handlers -/

/-- A JSON HTTP response body with the fields any of the handlers may set;
`none` marks a field absent from the body. -/
structure JResp where
  status : Nat
  error : Option Str
  message : Option Str
  interests : Option (List ExtractedItem)
  importantDates : Option (List ExtractedItem)
  places : Option (List ExtractedItem)
  notes : Option (List ExtractedItem)
deriving DecidableEq

/-- The shared request validation
`!text || typeof text !== "string" || text.trim().length === 0`:
yields the text exactly when the field holds a string with nonblank content. -/
def validBodyText : Option Json → Option Str
  | some (.str s) => if jsTrim s = [] then none else some s
  | _ => none

def validationErrorName : Str := ls (r"ValidationError")

/-- The 400 message (the quotes the source puts around the word text are
elided here). -/
def validationMsg : Str := ls (r"Missing or invalid text field in request body")

def aiFailedMsg : Str := ls (r"AI extraction failed")

/-- The part_001 `/extract` handler: a 400 body carries only `error` and
`message`; a 200 body is `extractStructuredData(text)`. -/
def handlerV1 (textField : Option Json) : JResp :=
  match validBodyText textField with
  | none => ⟨400, some validationErrorName, some validationMsg, none, none, none, none⟩
  | some t =>
    let d := extractStructuredData t
    ⟨200, none, none, some d.interests, some d.importantDates, some d.places, some d.notes⟩

/-- The current backend `/extract` handler (part_002, same as
src/backend/src/index.ts), parameterized over the awaited outcome of
`extractFactsFromText` (`Except.error` models a rejected promise).  A
TypeError escaping `transformToFrontendFormat` is caught by the same catch
block (its message is modelled as "TypeError"). -/
def handlerV2 (textField : Option Json) (outcome : Except Str AIResult) : JResp :=
  match validBodyText textField with
  | none =>
    ⟨400, some validationErrorName, some validationMsg, some [], some [], some [], some []⟩
  | some _t =>
    match outcome with
    | .error m => ⟨500, some aiFailedMsg, some m, some [], some [], some [], some []⟩
    | .ok aiResult =>
      match transformToFrontendFormat aiResult with
      | some fd =>
        ⟨200, none, none, some fd.interests, some fd.importantDates, some fd.places,
         some fd.notes⟩
      | none =>
        ⟨500, some aiFailedMsg, some (ls (r"TypeError")), some [], some [], some [],
         some []⟩

/-! ### Claim theorems -/

/-- C6: for every non-empty input text the deterministic extractor's notes
category is exactly one item holding the entire original text, with no
cleaning, filtering or deduplication applied to it. -/
theorem C6_notes_single (text : Str) (_h : text ≠ []) :
    (extractStructuredData text).notes = [⟨text⟩] := rfl

theorem C6_notes_single_witness :
    (ls (r"hi")) ≠ [] ∧ (extractStructuredData (ls (r"hi"))).notes = [⟨ls (r"hi")⟩] :=
  ⟨by decide, C6_notes_single (ls (r"hi")) (by decide)⟩

/-- All four category fields are present (bound to arrays) in a response. -/
def envelopeComplete (rsp : JResp) : Prop :=
  rsp.interests.isSome = true ∧ rsp.importantDates.isSome = true ∧
  rsp.places.isSome = true ∧ rsp.notes.isSome = true

/-- C1 counterexample: the deterministic variant's handler answers a missing
text field with a 400 body that has no interests field at all (likewise for
the other three categories), so the response envelope is not always
complete. -/
theorem C1_envelope_counterexample :
    (handlerV1 none).status = 400 ∧ (handlerV1 none).interests = none ∧
    (handlerV1 none).importantDates = none ∧ (handlerV1 none).places = none ∧
    (handlerV1 none).notes = none := by
  refine ⟨rfl, rfl, rfl, rfl, rfl⟩

/-- C1 (amended): every response (400, 500 or 200) of the current model-backed
handler carries all four array fields; for the deterministic part_001 handler
this holds on the 200 path, while its 400 responses omit all four. -/
theorem C1_envelope_amended :
    (∀ (tf : Option Json) (outcome : Except Str AIResult),
        envelopeComplete (handlerV2 tf outcome)) ∧
    (∀ (tf : Option Json) (t : Str), validBodyText tf = some t →
        envelopeComplete (handlerV1 tf)) := by
  constructor
  · intro tf outcome
    unfold handlerV2
    split
    · exact ⟨rfl, rfl, rfl, rfl⟩
    · split
      · exact ⟨rfl, rfl, rfl, rfl⟩
      · split
        · exact ⟨rfl, rfl, rfl, rfl⟩
        · exact ⟨rfl, rfl, rfl, rfl⟩
  · intro tf t h
    unfold handlerV1
    rw [h]
    exact ⟨rfl, rfl, rfl, rfl⟩

theorem C1_envelope_amended_witness :
    envelopeComplete (handlerV2 none (.error (ls (r"boom")))) ∧
    validBodyText (some (.str (ls (r"hello")))) = some (ls (r"hello")) ∧
    envelopeComplete (handlerV1 (some (.str (ls (r"hello"))))) :=
  ⟨C1_envelope_amended.1 none (.error (ls (r"boom"))),
   by decide,
   C1_envelope_amended.2 (some (.str (ls (r"hello")))) (ls (r"hello")) (by decide)⟩

/-- C7 counterexample: in the chunked extractor of ai.service.ts an
unparseable reply does not raise the domain error; the chunk is recovered
locally as zero facts and extraction still returns an ordinary (empty)
result, contradicting the claim for that cited function. -/
theorem C7_invalid_json_counterexample :
    extractFactsFromSingleChunk (ls (r"Hi there.")) none = [] ∧
    (extractFactsFromText (ls (r"Hi there.")) (fun _ => none)).payload.facts = [] :=
  ⟨rfl, rfl⟩

/-- C7 (amended): the part_006 variant raises the domain error "AI returned
invalid JSON" whenever the reply cannot be parsed even after extracting a
brace-delimited span, and never crashes with anything else on that path; the
chunked ai.service.ts variant instead recovers an unparseable per-chunk reply
locally, contributing zero facts for that chunk. -/
theorem C7_invalid_json_amended :
    (∀ (parse : Str → Option Json) (content : Str),
        parse ((braceSpan content).getD content) = none →
        V6.extractFactsFromText parse content = .error V6.errMsg) ∧
    (∀ chunk : Str, extractFactsFromSingleChunk chunk none = []) := by
  constructor
  · intro parse content h
    unfold V6.extractFactsFromText
    simp only [h]
  · intro chunk
    rfl

theorem C7_invalid_json_amended_witness :
    (fun (_ : Str) => (none : Option Json)) ((braceSpan (ls (r"hello"))).getD (ls (r"hello"))) = none ∧
    V6.extractFactsFromText (fun _ => none) (ls (r"hello")) = .error V6.errMsg ∧
    extractFactsFromSingleChunk (ls (r"abc")) none = [] :=
  ⟨rfl, C7_invalid_json_amended.1 (fun _ => none) (ls (r"hello")) rfl,
   C7_invalid_json_amended.2 (ls (r"abc"))⟩

/-- The fact object shape of the external schema: type, value and source
text, all strings. -/
def mkFact (ty v s : Str) : Json :=
  .obj [(ls (r"type"), .str ty), (ls (r"value"), .str v), (ls (r"source_text"), .str s)]

/-- C4 counterexample: a record whose declared type is outside the four
allowed labels is routed to "note" even though its source text matches a date
indicator, so the re-derived priority does not apply regardless of the
declared category. -/
theorem C4_priority_counterexample :
    validateAndCorrectFactType
        (mkFact (ls (r"event")) (ls (r"April 5")) (ls (r"my birthday is April 5"))) =
      some (ls (r"note")) ∧
    hasDateIndicator (lowerStr (ls (r"my birthday is April 5"))) = true := by
  constructor
  · rfl
  · decide

/-- C4 (amended): for every record whose declared type is one of the four
allowed labels, the category is re-derived from the effective source text
(source text, falling back to the value) by the fixed priority
date > place > interest > note, regardless of which of the four labels the
external model picked; records with any other label are assigned "note"
without consulting the text. -/
theorem C4_priority_amended (ty v s : Str)
    (hty : isAllowedType (some (.str ty)) = true) :
    validateAndCorrectFactType (mkFact ty v s) =
      some (
        if hasDateIndicator (lowerStr (if s ≠ [] then s else v)) then ls (r"important_date")
        else if hasPlaceVerb (lowerStr (if s ≠ [] then s else v)) then ls (r"place")
        else if hasInterestVerb (lowerStr (if s ≠ [] then s else v)) then ls (r"interest")
        else ls (r"note")) := by
  have hget_ty : jsGet (mkFact ty v s) (ls (r"type")) = some (.str ty) := rfl
  have hget_v : jsGet (mkFact ty v s) (ls (r"value")) = some (.str v) := rfl
  have hget_s : jsGet (mkFact ty v s) (ls (r"source_text")) = some (.str s) := rfl
  unfold validateAndCorrectFactType
  rw [hget_ty, hget_v, hget_s]
  by_cases hs : s = []
  · by_cases hv : v = []
    · simp [hs, hv, jsTruthy, hty]
    · simp [hs, hv, jsTruthy, hty]
  · simp [hs, jsTruthy, hty]

theorem C4_priority_amended_witness :
    isAllowedType (some (.str (ls (r"interest")))) = true ∧
    validateAndCorrectFactType
        (mkFact (ls (r"interest")) (ls (r"x")) (ls (r"went to tokyo"))) =
      some (
        if hasDateIndicator (lowerStr (if (ls (r"went to tokyo")) ≠ [] then (ls (r"went to tokyo")) else (ls (r"x")))) then ls (r"important_date")
        else if hasPlaceVerb (lowerStr (if (ls (r"went to tokyo")) ≠ [] then (ls (r"went to tokyo")) else (ls (r"x")))) then ls (r"place")
        else if hasInterestVerb (lowerStr (if (ls (r"went to tokyo")) ≠ [] then (ls (r"went to tokyo")) else (ls (r"x")))) then ls (r"interest")
        else ls (r"note")) :=
  ⟨by decide, C4_priority_amended (ls (r"interest")) (ls (r"x")) (ls (r"went to tokyo")) (by decide)⟩

/-- Invariant of collapsed strings: every whitespace character is a plain
space and no two adjacent characters are both whitespace. -/
def Collapsed (l : Str) : Prop :=
  (∀ c ∈ l, isWS c = true → c = ' ') ∧
  l.Chain' (fun a b => ¬(isWS a = true ∧ isWS b = true))

theorem collapseWS_cons_head (d : Char) (rest : Str) (hd : isWS d = false) :
    (collapseWS (d :: rest)).head? = some d := by
  cases rest with
  | nil => simp [collapseWS, hd]
  | cons e r => simp [collapseWS, hd]

theorem collapseWS_collapsed : ∀ l : Str, Collapsed (collapseWS l)
  | [] => ⟨by simp [collapseWS], by simp [collapseWS]⟩
  | [c] => by
    unfold collapseWS
    split
    · refine ⟨?_, by simp⟩
      intro x hx _
      simp at hx
      exact hx
    · rename_i hws
      refine ⟨?_, by simp⟩
      intro x hx hxe
      simp at hx
      rw [hx] at hxe
      rw [hxe] at hws
      simp at hws
  | c :: d :: rest => by
    have ih := collapseWS_collapsed (d :: rest)
    unfold collapseWS
    split
    · exact ih
    · rename_i hcd
      constructor
      · intro x hx hxw
        cases hx with
        | head =>
          cases hw : isWS c with
          | true => simp [hw]
          | false => simp [hw] at hxw
        | tail _ hmem => exact ih.1 x hmem hxw
      · rw [List.chain'_cons']
        refine ⟨?_, ih.2⟩
        intro b hb
        cases hw : isWS c with
        | false => simp [hw]
        | true =>
          have hd : isWS d = false := by
            cases hdd : isWS d
            · rfl
            · exact absurd (by rw [hw, hdd]; rfl) hcd
          rw [collapseWS_cons_head d rest hd] at hb
          simp at hb
          subst hb
          simp [hd]

theorem collapsed_fix : ∀ l : Str, Collapsed l → collapseWS l = l
  | [], _ => rfl
  | [c], h => by
    unfold collapseWS
    split
    · rename_i hws
      have := h.1 c (by simp) hws
      rw [this]
    · rfl
  | c :: d :: rest, h => by
    have hrel : ¬(isWS c = true ∧ isWS d = true) := (List.chain'_cons.mp h.2).1
    have htail : Collapsed (d :: rest) := by
      refine ⟨?_, (List.chain'_cons.mp h.2).2⟩
      intro x hx
      exact h.1 x (List.mem_cons_of_mem c hx)
    have ih := collapsed_fix (d :: rest) htail
    unfold collapseWS
    split
    · rename_i hcd
      rw [Bool.and_eq_true] at hcd
      exact absurd hcd hrel
    · rw [ih]
      by_cases hc : isWS c = true
      · rw [if_pos hc, h.1 c (by simp) hc]
      · rw [if_neg hc]

theorem jsTrim_contained (l : Str) : jsTrim l <:+: l := by
  unfold jsTrim
  have h1 : l.dropWhile isWS <:+ l := List.dropWhile_suffix isWS
  have h2 : ((l.dropWhile isWS).reverse.dropWhile isWS).reverse <+: l.dropWhile isWS := by
    rw [← List.reverse_suffix]
    simpa using List.dropWhile_suffix (l := (l.dropWhile isWS).reverse) isWS
  exact List.IsInfix.trans h2.isInfix h1.isInfix

theorem collapsed_of_contained {l m : Str} (h : Collapsed m) (hinf : l <:+: m) : Collapsed l :=
  ⟨fun c hc => h.1 c (hinf.subset hc), List.Chain'.infix h.2 hinf⟩

theorem stripTrailingPunct_eq_self {l : Str}
    (h : ∀ c ∈ l.getLast?, isPunctTail c = false) : stripTrailingPunct l = l := by
  unfold stripTrailingPunct
  rw [dropWhile_eq_self_of_head? _ _ (by rw [List.head?_reverse]; exact h)]
  exact List.reverse_reverse l

theorem clean_collapsed (v : Str) : Collapsed (cleanExtractedValue v) :=
  collapsed_of_contained (collapseWS_collapsed (stripTrailingPunct v))
    (jsTrim_contained (collapseWS (stripTrailingPunct v)))

theorem jsTrim_clean (v : Str) : jsTrim (cleanExtractedValue v) = cleanExtractedValue v :=
  jsTrim_idem (collapseWS (stripTrailingPunct v))

/-- C9 counterexample: cleaning is not idempotent; on "a! " (note the trailing
space shielding the bang) the first pass only trims, while the second pass
strips the now-exposed trailing punctuation. -/
theorem C9_clean_idem_counterexample :
    cleanExtractedValue (cleanExtractedValue (ls (r"a! "))) ≠
      cleanExtractedValue (ls (r"a! ")) := by decide

/-- C9 (amended): the value-cleaning step is idempotent exactly when no
punctuation remains exposed at the end of the cleaned value: for every x
whose cleaned form does not end in one of `, ; . ! ?`,
clean (clean x) = clean x.  (Trailing whitespace can shield a punctuation
run from the first strip, as in "a! ".) -/
theorem C9_clean_idem_amended (x : Str)
    (h : ∀ c ∈ (cleanExtractedValue x).getLast?, isPunctTail c = false) :
    cleanExtractedValue (cleanExtractedValue x) = cleanExtractedValue x := by
  show jsTrim (collapseWS (stripTrailingPunct (cleanExtractedValue x))) =
    cleanExtractedValue x
  rw [stripTrailingPunct_eq_self h]
  rw [collapsed_fix _ (clean_collapsed x)]
  exact jsTrim_clean x

theorem C9_clean_idem_amended_witness :
    (∀ c ∈ (cleanExtractedValue (ls (r"hello world"))).getLast?, isPunctTail c = false) ∧
    cleanExtractedValue (cleanExtractedValue (ls (r"hello world"))) =
      cleanExtractedValue (ls (r"hello world")) :=
  ⟨by decide, C9_clean_idem_amended (ls (r"hello world")) (by decide)⟩

def lenLE (a b : ExtractedItem) : Prop := a.value.length ≤ b.value.length

theorem insLen_perm (x : ExtractedItem) :
    ∀ l : List ExtractedItem, (insLen x l).Perm (x :: l)
  | [] => List.Perm.refl _
  | y :: ys => by
    unfold insLen
    split
    · exact ((insLen_perm x ys).cons y).trans (List.Perm.swap x y ys)
    · exact List.Perm.refl _

theorem sortByLen_perm : ∀ l : List ExtractedItem, (sortByLen l).Perm l
  | [] => List.Perm.refl _
  | a :: l => by
    show (insLen a (sortByLen l)).Perm (a :: l)
    exact (insLen_perm a (sortByLen l)).trans ((sortByLen_perm l).cons a)

theorem insLen_pairwise (x : ExtractedItem) :
    ∀ l : List ExtractedItem, l.Pairwise lenLE → (insLen x l).Pairwise lenLE
  | [], _ => by simp [insLen, List.pairwise_singleton]
  | y :: ys, h => by
    unfold insLen
    split
    · rename_i hlt
      rw [List.pairwise_cons]
      refine ⟨?_, insLen_pairwise x ys (List.Pairwise.of_cons h)⟩
      intro z hz
      rcases List.mem_cons.mp (((insLen_perm x ys).mem_iff).mp hz) with hzx | hzys
      · rw [hzx]; exact Nat.le_of_lt hlt
      · exact (List.pairwise_cons.mp h).1 z hzys
    · rename_i hnlt
      rw [List.pairwise_cons]
      refine ⟨?_, h⟩
      intro z hz
      have hxy : x.value.length ≤ y.value.length := Nat.le_of_not_lt hnlt
      cases hz with
      | head => exact hxy
      | tail _ hmem => exact hxy.trans ((List.pairwise_cons.mp h).1 z hmem)

theorem sortByLen_pairwise : ∀ l : List ExtractedItem, (sortByLen l).Pairwise lenLE
  | [] => List.Pairwise.nil
  | a :: l => insLen_pairwise a (sortByLen l) (sortByLen_pairwise l)

theorem rsdGo_sublist : ∀ (rest res : List ExtractedItem), (rsdGo rest res).Sublist (res ++ rest)
  | [], res => by simp [rsdGo]
  | item :: rest, res => by
    unfold rsdGo
    split
    · have h := rsdGo_sublist rest (res ++ [item])
      simpa using h
    · exact (rsdGo_sublist rest res).trans
        (List.Sublist.append_left (List.sublist_cons_self item rest) res)

theorem removeSubstringDuplicates_sublist_sort (items : List ExtractedItem) :
    (removeSubstringDuplicates items).Sublist (sortByLen items) := by
  unfold removeSubstringDuplicates
  split
  · rename_i hlen
    match items, hlen with
    | [], _ => exact List.Sublist.refl _
    | [x], _ => exact List.Sublist.refl _
  · simpa using rsdGo_sublist (sortByLen items) []

set_option maxHeartbeats 4000000 in
/-- C5 counterexample: on the input "coffee tea" the interests candidates are
discovered as Coffee then Tea (keyword list order), yet the returned category
lists Tea before Coffee — the substring-dedup pass length-sorts the items, so
the final sequence is not in first-discovered order. -/
theorem C5_order_counterexample :
    extract (ls (r"coffee tea")) PATTERNS_interests KEYWORDS_interests =
      [⟨ls (r"Coffee")⟩, ⟨ls (r"Tea")⟩] ∧
    (extractStructuredData (ls (r"coffee tea"))).interests =
      [⟨ls (r"Tea")⟩, ⟨ls (r"Coffee")⟩] := by
  constructor
  · decide
  · decide

/-- C5 (amended): each category's output is the stable ascending-length sort
of its first-discovered candidate sequence with the substring/duplicate
filter applied: a sublist of that sort, pairwise nondecreasing in value
length (equal-length items keep first-discovered order, but longer items move
after shorter ones, so discovery order itself is not preserved). -/
theorem C5_order_amended :
    (∀ items : List ExtractedItem,
        (removeSubstringDuplicates items).Sublist (sortByLen items) ∧
        (removeSubstringDuplicates items).Pairwise lenLE) ∧
    (∀ text : Str,
        extractStructuredData text =
          { interests := removeSubstringDuplicates (filterGenericWords
              (extract text PATTERNS_interests KEYWORDS_interests) GENERIC_FILTERS_interests)
            importantDates :=
              removeSubstringDuplicates (extract text PATTERNS_importantDates KEYWORDS_importantDates)
            places := removeSubstringDuplicates (filterGenericWords
              (extract text PATTERNS_places KEYWORDS_places) GENERIC_FILTERS_places)
            notes := [⟨text⟩] }) := by
  constructor
  · intro items
    refine ⟨removeSubstringDuplicates_sublist_sort items, ?_⟩
    exact List.Pairwise.sublist (removeSubstringDuplicates_sublist_sort items)
      (sortByLen_pairwise items)
  · intro text
    rfl

/-- Normalized value of an item: lowercased, trimmed (the dedup key of the
data model). -/
def nvItem (a : ExtractedItem) : Str := jsTrim (lowerStr a.value)

/-- The per-category invariant: distinct normalized values, neither a
substring of the other. -/
def NVOk (a b : ExtractedItem) : Prop :=
  nvItem a ≠ nvItem b ∧ ¬ (nvItem a <:+: nvItem b) ∧ ¬ (nvItem b <:+: nvItem a)

theorem nvItem_of_trimmed {a : ExtractedItem} (h : jsTrim a.value = a.value) :
    nvItem a = lowerStr a.value :=
  jsTrim_lowerStr_of_trimmed (by rw [h])

theorem length_nvItem_of_trimmed {a : ExtractedItem} (h : jsTrim a.value = a.value) :
    (nvItem a).length = a.value.length := by
  rw [nvItem_of_trimmed h, length_lowerStr]

theorem rsdKeep_spec {res : List ExtractedItem} {item : ExtractedItem}
    (hres : ∀ it ∈ res, jsTrim it.value = it.value)
    (hkeep : rsdKeep res item = true) :
    ∀ e ∈ res, nvItem e ≠ nvItem item ∧ ¬ (nvItem e <:+: nvItem item) := by
  intro e he
  unfold rsdKeep at hkeep
  rw [Bool.and_eq_true] at hkeep
  obtain ⟨hsub, hdup⟩ := hkeep
  rw [Bool.not_eq_true'] at hsub hdup
  rw [List.any_eq_false] at hsub hdup
  have hs := hsub e he
  have hd := hdup e he
  simp only [Bool.and_eq_true, decide_eq_true_eq, not_and] at hs hd
  have hne : nvItem e ≠ nvItem item := by
    rw [nvItem_of_trimmed (hres e he)]
    exact hd
  exact ⟨hne, hs hne⟩

theorem rsdGo_invariant :
    ∀ (rest res : List ExtractedItem),
      (∀ it ∈ res, jsTrim it.value = it.value) →
      (∀ it ∈ rest, jsTrim it.value = it.value) →
      (∀ e ∈ res, ∀ x ∈ rest, e.value.length ≤ x.value.length) →
      rest.Pairwise lenLE →
      res.Pairwise NVOk →
      (rsdGo rest res).Pairwise NVOk
  | [], res, _, _, _, _, hres => hres
  | item :: rest, res, htres, htrest, hlen, hsorted, hres => by
    unfold rsdGo
    split
    · rename_i hkeep
      apply rsdGo_invariant rest (res ++ [item])
      · intro it hit
        rcases List.mem_append.mp hit with h | h
        · exact htres it h
        · rw [List.mem_singleton.mp h]
          exact htrest item (by simp)
      · intro it hit
        exact htrest it (List.mem_cons_of_mem item hit)
      · intro e hmem x hx
        rcases List.mem_append.mp hmem with h | h
        · exact hlen e h x (List.mem_cons_of_mem item hx)
        · rw [List.mem_singleton.mp h]
          exact (List.pairwise_cons.mp hsorted).1 x hx
      · exact List.Pairwise.of_cons hsorted
      · rw [List.pairwise_append]
        refine ⟨hres, List.pairwise_singleton _ _, ?_⟩
        intro a ha b hb
        rw [List.mem_singleton.mp hb]
        have hti : jsTrim item.value = item.value := htrest item (by simp)
        have hspec := rsdKeep_spec htres hkeep a ha
        refine ⟨hspec.1, hspec.2, ?_⟩
        intro hinf
        have hle : (nvItem item).length ≤ (nvItem a).length := hinf.length_le
        have hge : a.value.length ≤ item.value.length := hlen a ha item (by simp)
        rw [length_nvItem_of_trimmed hti, length_nvItem_of_trimmed (htres a ha)] at hle
        have heq : (nvItem item).length = (nvItem a).length := by
          rw [length_nvItem_of_trimmed hti, length_nvItem_of_trimmed (htres a ha)]
          omega
        exact hspec.1 (hinf.eq_of_length heq).symm
    · apply rsdGo_invariant rest res htres
      · intro it hit
        exact htrest it (List.mem_cons_of_mem item hit)
      · intro e he x hx
        exact hlen e he x (List.mem_cons_of_mem item hx)
      · exact List.Pairwise.of_cons hsorted
      · exact hres

theorem removeSubstringDuplicates_pairwise (items : List ExtractedItem)
    (htr : ∀ it ∈ items, jsTrim it.value = it.value) :
    (removeSubstringDuplicates items).Pairwise NVOk := by
  unfold removeSubstringDuplicates
  split
  · rename_i hlen
    match items, hlen with
    | [], _ => exact List.Pairwise.nil
    | [x], _ => exact List.pairwise_singleton _ _
  · apply rsdGo_invariant (sortByLen items) []
    · intro it hit
      simp at hit
    · intro it hit
      exact htr it ((sortByLen_perm items).subset hit)
    · intro e he
      simp at he
    · exact sortByLen_pairwise items
    · exact List.Pairwise.nil

def MapTrimmed (m : OMap) : Prop := ∀ e ∈ m, jsTrim e.2 = e.2

theorem mapTrimmed_mset {m : OMap} {k v : Str} (h : MapTrimmed m) (hv : jsTrim v = v) :
    MapTrimmed (mset m k v) := by
  intro e he
  rcases List.mem_append.mp he with h1 | h1
  · exact h e h1
  · rw [List.mem_singleton.mp h1]
    exact hv

theorem insertCapture_trimmed {text : Str} {m : OMap} (mr : Nat × MatchRes)
    (h : MapTrimmed m) : MapTrimmed (insertCapture text m mr) := by
  unfold insertCapture
  split
  · exact h
  · dsimp only
    split
    · split
      · split
        · exact h
        · exact mapTrimmed_mset h (jsTrim_clean _)
      · exact h
    · exact h

theorem foldl_preserve {α β : Type} {P : β → Prop} {f : β → α → β}
    (hstep : ∀ b a, P b → P (f b a)) :
    ∀ (l : List α) (b : β), P b → P (l.foldl f b)
  | [], _, hb => hb
  | a :: l, b, hb => foldl_preserve hstep l (f b a) (hstep b a hb)

theorem regexPass_trimmed (text : Str) (pats : List RE) (m : OMap) (h : MapTrimmed m) :
    MapTrimmed (regexPass text pats m) := by
  unfold regexPass
  refine foldl_preserve ?_ pats m h
  intro b p hb
  unfold regexPassOne
  exact foldl_preserve (fun b' mr hb' => insertCapture_trimmed mr hb') _ b hb

theorem keywordStep_trimmed {normalized : Str} {m : OMap} {kw : Str}
    (h : MapTrimmed m) (hkw : jsTrim (titleCaseKeyword kw) = titleCaseKeyword kw) :
    MapTrimmed (keywordStep normalized m kw) := by
  unfold keywordStep
  dsimp only
  split
  · split
    · exact h
    · exact mapTrimmed_mset h hkw
  · exact h

theorem keywordPass_trimmed :
    ∀ (kws : List Str) {normalized : Str} {m : OMap},
      MapTrimmed m →
      (∀ kw ∈ kws, jsTrim (titleCaseKeyword kw) = titleCaseKeyword kw) →
      MapTrimmed (keywordPass normalized kws m)
  | [], _, _, h, _ => h
  | kw :: kws, normalized, m, h, hkws => by
    show MapTrimmed (keywordPass normalized kws (keywordStep normalized m kw))
    exact keywordPass_trimmed kws
      (keywordStep_trimmed h (hkws kw (by simp)))
      (fun kw' h' => hkws kw' (List.mem_cons_of_mem kw h'))

theorem extract_trimmed (text : Str) (pats : List RE) (kws : List Str)
    (hkws : ∀ kw ∈ kws, jsTrim (titleCaseKeyword kw) = titleCaseKeyword kw) :
    ∀ it ∈ extract text pats kws, jsTrim it.value = it.value := by
  intro it hit
  unfold extract mvalues at hit
  rw [List.map_map, List.mem_map] at hit
  obtain ⟨e, he, heq⟩ := hit
  have hmap : MapTrimmed (extractMap text pats kws) :=
    keywordPass_trimmed kws (regexPass_trimmed text pats [] (by intro e' he'; simp at he')) hkws
  rw [← heq]
  exact hmap e he

theorem keywords_titleCase_trimmed :
    (∀ kw ∈ KEYWORDS_interests, jsTrim (titleCaseKeyword kw) = titleCaseKeyword kw) ∧
    (∀ kw ∈ KEYWORDS_importantDates, jsTrim (titleCaseKeyword kw) = titleCaseKeyword kw) ∧
    (∀ kw ∈ KEYWORDS_places, jsTrim (titleCaseKeyword kw) = titleCaseKeyword kw) := by
  refine ⟨?_, ?_, ?_⟩ <;> decide

theorem filterGenericWords_subset (items : List ExtractedItem) (gw : List Str) :
    ∀ it ∈ filterGenericWords items gw, it ∈ items := by
  intro it hit
  unfold filterGenericWords at hit
  exact List.mem_of_mem_filter hit

theorem dedupeGo_key_not_mem :
    ∀ (facts : List Json) (seen : List Str) (f : Json),
      f ∈ dedupeGo facts seen → dedupeKey f ∉ seen
  | [], _, _, hf => by simp [dedupeGo] at hf
  | g :: facts, seen, f, hf => by
    unfold dedupeGo at hf
    split at hf
    · exact dedupeGo_key_not_mem facts seen f hf
    · split at hf
      · exact dedupeGo_key_not_mem facts seen f hf
      · rename_i hempty hseen
        rcases List.mem_cons.mp hf with h | h
        · rw [h]
          exact hseen
        · have := dedupeGo_key_not_mem facts (dedupeKey g :: seen) f h
          intro hc
          exact this (List.mem_cons_of_mem _ hc)

theorem dedupeGo_pairwise :
    ∀ (facts : List Json) (seen : List Str),
      (dedupeGo facts seen).Pairwise (fun f g => dedupeKey f ≠ dedupeKey g)
  | [], _ => List.Pairwise.nil
  | g :: facts, seen => by
    unfold dedupeGo
    split
    · exact dedupeGo_pairwise facts seen
    · split
      · exact dedupeGo_pairwise facts seen
      · rw [List.pairwise_cons]
        refine ⟨?_, dedupeGo_pairwise facts (dedupeKey g :: seen)⟩
        intro f hf
        have := dedupeGo_key_not_mem facts (dedupeKey g :: seen) f hf
        intro hc
        exact this (by rw [← hc]; exact List.mem_cons_self _ _)

/-- C2 counterexample (model-backed path): two records with different declared
types but overlapping values both survive `dedupeFacts` (its key uses the
declared type), and the re-classification in `transformToFrontendFormat`
routes both to interests, whose final list then holds "sushi" next to
"likes sushi" — one normalized value a substring of the other. -/
theorem C2_dedup_counterexample :
    transformToFrontendFormat
        ⟨ls (r"extraction"),
         ⟨dedupeFacts
            [mkFact (ls (r"interest")) (ls (r"sushi")) (ls (r"likes sushi")),
             mkFact (ls (r"note")) (ls (r"likes sushi")) (ls (r"likes sushi"))]⟩,
         1, false⟩ =
      some ⟨[⟨ls (r"sushi")⟩, ⟨ls (r"likes sushi")⟩], [], [], []⟩ ∧
    nvItem ⟨ls (r"sushi")⟩ <:+: nvItem ⟨ls (r"likes sushi")⟩ := by
  constructor
  · decide
  · decide

/-- C2 (amended): within each category of the deterministic extractor's final
result no two items share a normalized value and no item's normalized value
is a substring of another's; in the model-backed path, `dedupeFacts`
guarantees only that no two surviving records share the
declared-type/normalized-value key — the reshaped per-category output can
still contain equal or substring-related values when declared types differ. -/
theorem C2_dedup_amended :
    (∀ text : Str,
        (extractStructuredData text).interests.Pairwise NVOk ∧
        (extractStructuredData text).importantDates.Pairwise NVOk ∧
        (extractStructuredData text).places.Pairwise NVOk ∧
        (extractStructuredData text).notes.Pairwise NVOk) ∧
    (∀ facts : List Json,
        (dedupeFacts facts).Pairwise (fun f g => dedupeKey f ≠ dedupeKey g)) := by
  constructor
  · intro text
    have hrw : extractStructuredData text =
        { interests := removeSubstringDuplicates (filterGenericWords
            (extract text PATTERNS_interests KEYWORDS_interests) GENERIC_FILTERS_interests)
          importantDates :=
            removeSubstringDuplicates (extract text PATTERNS_importantDates KEYWORDS_importantDates)
          places := removeSubstringDuplicates (filterGenericWords
            (extract text PATTERNS_places KEYWORDS_places) GENERIC_FILTERS_places)
          notes := [⟨text⟩] } := rfl
    rw [hrw]
    refine ⟨?_, ?_, ?_, List.pairwise_singleton _ _⟩
    · apply removeSubstringDuplicates_pairwise
      intro it hit
      exact extract_trimmed text PATTERNS_interests KEYWORDS_interests
        keywords_titleCase_trimmed.1 it (filterGenericWords_subset _ _ it hit)
    · apply removeSubstringDuplicates_pairwise
      intro it hit
      exact extract_trimmed text PATTERNS_importantDates KEYWORDS_importantDates
        keywords_titleCase_trimmed.2.1 it hit
    · apply removeSubstringDuplicates_pairwise
      intro it hit
      exact extract_trimmed text PATTERNS_places KEYWORDS_places
        keywords_titleCase_trimmed.2.2 it (filterGenericWords_subset _ _ it hit)
  · intro facts
    exact dedupeGo_pairwise facts []

theorem insertCapture_allWS {text : Str} (hws : ∀ c ∈ text, isWS c = true)
    (m : OMap) (mr : Nat × MatchRes) : insertCapture text m mr = m := by
  unfold insertCapture
  split
  · rfl
  · rename_i g heq
    dsimp only
    have hcap : jsTrim (sliceStr text g.1 g.2) = [] :=
      jsTrim_eq_nil_of_allWS (fun c hc => hws c (mem_of_mem_slice text g.1 g.2 c hc))
    rw [hcap]
    simp

theorem foldl_id {α β : Type} {f : β → α → β} (h : ∀ b a, f b a = b) :
    ∀ (l : List α) (b : β), l.foldl f b = b
  | [], _ => rfl
  | a :: l, b => by
    rw [List.foldl_cons, h b a]
    exact foldl_id h l b

theorem regexPass_allWS {text : Str} (hws : ∀ c ∈ text, isWS c = true)
    (pats : List RE) (m : OMap) : regexPass text pats m = m := by
  unfold regexPass
  refine foldl_id ?_ pats m
  intro b p
  unfold regexPassOne
  exact foldl_id (fun b' mr => insertCapture_allWS hws b' mr) _ b

theorem extract_allWS (text : Str) (hws : ∀ c ∈ text, isWS c = true)
    (pats : List RE) (kws : List Str) (hkw : keywordPass [] kws [] = []) :
    extract text pats kws = [] := by
  have hnorm : jsTrim (lowerStr text) = [] := by
    apply jsTrim_eq_nil_of_allWS
    intro c hc
    unfold lowerStr at hc
    rw [List.mem_map] at hc
    obtain ⟨d, hd, rfl⟩ := hc
    rw [isWS_lowerC]
    exact hws d hd
  unfold extract extractMap
  rw [regexPass_allWS hws, hnorm, hkw]
  rfl

/-- C10: the deterministic extractor is total beyond its stated non-empty
precondition: on the empty string and on every whitespace-only string it
returns the well-formed result with empty interests, dates and places and a
single notes item holding the original input unchanged. -/
theorem C10_whitespace_safe (text : Str) (hws : ∀ c ∈ text, isWS c = true) :
    extractStructuredData text =
      { interests := [], importantDates := [], places := [], notes := [⟨text⟩] } := by
  have h1 : extract text PATTERNS_interests KEYWORDS_interests = [] :=
    extract_allWS text hws _ _ (by decide)
  have h2 : extract text PATTERNS_importantDates KEYWORDS_importantDates = [] :=
    extract_allWS text hws _ _ (by decide)
  have h3 : extract text PATTERNS_places KEYWORDS_places = [] :=
    extract_allWS text hws _ _ (by decide)
  have hrw : extractStructuredData text =
      { interests := removeSubstringDuplicates (filterGenericWords
          (extract text PATTERNS_interests KEYWORDS_interests) GENERIC_FILTERS_interests)
        importantDates :=
          removeSubstringDuplicates (extract text PATTERNS_importantDates KEYWORDS_importantDates)
        places := removeSubstringDuplicates (filterGenericWords
          (extract text PATTERNS_places KEYWORDS_places) GENERIC_FILTERS_places)
        notes := [⟨text⟩] } := rfl
  rw [hrw, h1, h2, h3]
  rfl

theorem C10_whitespace_safe_witness :
    (∀ c ∈ ls (r"  "), isWS c = true) ∧
    extractStructuredData (ls (r"  ")) =
      { interests := [], importantDates := [], places := [], notes := [⟨ls (r"  ")⟩] } ∧
    extractStructuredData ([] : Str) =
      { interests := [], importantDates := [], places := [], notes := [⟨([] : Str)⟩] } :=
  ⟨by decide, C10_whitespace_safe (ls (r"  ")) (by decide),
   C10_whitespace_safe [] (by intro c hc; simp at hc)⟩

theorem mhas_mset {m : OMap} {k k' v : Str} (h : mhas m k = true) :
    mhas (mset m k' v) k = true := by
  unfold mhas at h ⊢
  rw [List.any_eq_true] at h ⊢
  obtain ⟨e, he, hpe⟩ := h
  exact ⟨e, List.mem_append_left _ he, hpe⟩

theorem mlookup_mset_of_has {m : OMap} {k k' v : Str} (h : mhas m k = true) :
    mlookup (mset m k' v) k = mlookup m k := by
  unfold mlookup mset
  rw [List.find?_append]
  cases hf : m.find? (fun e => decide (e.1 = k)) with
  | some e => simp [Option.or]
  | none =>
    exfalso
    unfold mhas at h
    rw [List.any_eq_true] at h
    obtain ⟨e, he, hpe⟩ := h
    exact (List.find?_eq_none.mp hf e he) hpe

theorem keywordStep_preserves {normalized : Str} {m : OMap} {kw k : Str}
    (h : mhas m k = true) :
    mlookup (keywordStep normalized m kw) k = mlookup m k ∧
    mhas (keywordStep normalized m kw) k = true := by
  unfold keywordStep
  dsimp only
  split
  · split
    · exact ⟨rfl, h⟩
    · exact ⟨mlookup_mset_of_has h, mhas_mset h⟩
  · exact ⟨rfl, h⟩

theorem keywordPass_preserves :
    ∀ (kws : List Str) {normalized : Str} {m : OMap} {k : Str},
      mhas m k = true →
      mlookup (keywordPass normalized kws m) k = mlookup m k
  | [], _, _, _, _ => rfl
  | kw :: kws, normalized, m, k, h => by
    show mlookup (keywordPass normalized kws (keywordStep normalized m kw)) k = mlookup m k
    rw [keywordPass_preserves kws (keywordStep_preserves h).2]
    exact (keywordStep_preserves h).1

theorem mlookup_mem_values {m : OMap} {k v : Str} (h : mlookup m k = some v) :
    v ∈ mvalues m := by
  unfold mlookup at h
  cases hf : m.find? (fun e => decide (e.1 = k)) with
  | none => rw [hf] at h; simp at h
  | some e =>
    rw [hf] at h
    simp at h
    unfold mvalues
    rw [List.mem_map]
    exact ⟨e, List.mem_of_find?_eq_some hf, h⟩

/-- C8: whenever the regex pass has already bound a normalized key, the later
keyword pass leaves that binding untouched (the insertion is skipped because
the key is present), so the regex-derived phrasing is the one the category
output carries for that key. -/
theorem C8_regex_wins (text : Str) (pats : List RE) (kws : List Str) (k : Str)
    (h : mhas (regexPass text pats []) k = true) :
    mlookup (extractMap text pats kws) k = mlookup (regexPass text pats []) k ∧
    (∀ v : Str, mlookup (regexPass text pats []) k = some v →
      ExtractedItem.mk v ∈ extract text pats kws) := by
  have hpres : mlookup (extractMap text pats kws) k = mlookup (regexPass text pats []) k :=
    keywordPass_preserves kws h
  refine ⟨hpres, ?_⟩
  intro v hv
  unfold extract
  rw [List.mem_map]
  exact ⟨v, mlookup_mem_values (by rw [hpres]; exact hv), rfl⟩

theorem C8_regex_wins_witness :
    mhas (regexPass (ls (r"love sushi a lot")) PATTERNS_interests []) (ls (r"sushi")) = true ∧
    reTest (keywordRE (ls (r"sushi"))) true (jsTrim (lowerStr (ls (r"love sushi a lot")))) = true ∧
    mlookup (extractMap (ls (r"love sushi a lot")) PATTERNS_interests KEYWORDS_interests)
        (ls (r"sushi")) =
      mlookup (regexPass (ls (r"love sushi a lot")) PATTERNS_interests []) (ls (r"sushi")) :=
  ⟨by decide, by decide,
   (C8_regex_wins (ls (r"love sushi a lot")) PATTERNS_interests KEYWORDS_interests
      (ls (r"sushi")) (by decide)).1⟩

theorem factOk_includes {chunk : Str} {f : Json} (h : factOk chunk f = true) :
    jsIncludes chunk (jsToString ((jsGet f (ls (r"source_text"))).getD .null)) = true := by
  unfold factOk at h
  simp only [Bool.and_eq_true] at h
  exact h.2

theorem dedupeGo_subset : ∀ (facts : List Json) (seen : List Str) (f : Json),
    f ∈ dedupeGo facts seen → f ∈ facts
  | [], _, _, h => by simp [dedupeGo] at h
  | g :: facts, seen, f, h => by
    unfold dedupeGo at h
    split at h
    · exact List.mem_cons_of_mem g (dedupeGo_subset facts seen f h)
    · split at h
      · exact List.mem_cons_of_mem g (dedupeGo_subset facts seen f h)
      · rcases List.mem_cons.mp h with h1 | h1
        · rw [h1]
          exact List.mem_cons_self g facts
        · exact List.mem_cons_of_mem g (dedupeGo_subset facts (dedupeKey g :: seen) f h1)

/-- C3: a fact record whose declared source text is not a verbatim substring
of the chunk that was sent is dropped by the per-chunk validation and can
therefore never appear in the extraction output; conversely every record in
the final output carries a source text that occurs verbatim in one of the
chunks built from the input. -/
theorem C3_hallucination_guard :
    (∀ (chunk : Str) (parsed : Option Json) (f : Json),
        jsIncludes chunk (jsToString ((jsGet f (ls (r"source_text"))).getD .null)) = false →
        f ∉ extractFactsFromSingleChunk chunk parsed) ∧
    (∀ (text : Str) (oracle : Str → Option Json) (f : Json),
        f ∈ (extractFactsFromText text oracle).payload.facts →
        ∃ c ∈ chunkTextForExtraction text,
          jsIncludes c (jsToString ((jsGet f (ls (r"source_text"))).getD .null)) = true) := by
  constructor
  · intro chunk parsed f hninc hmem
    cases parsed with
    | none => simp [extractFactsFromSingleChunk] at hmem
    | some j =>
      unfold extractFactsFromSingleChunk at hmem
      rw [factOk_includes (List.of_mem_filter hmem)] at hninc
      exact Bool.noConfusion hninc
  · intro text oracle f hmem
    have h1 : f ∈ ((chunkTextForExtraction text).map
        (fun c => extractFactsFromSingleChunk c (oracle c))).flatten :=
      dedupeGo_subset _ [] f hmem
    rw [List.mem_flatten] at h1
    obtain ⟨l, hl, hfl⟩ := h1
    rw [List.mem_map] at hl
    obtain ⟨c, hc, rfl⟩ := hl
    refine ⟨c, hc, ?_⟩
    cases horacle : oracle c with
    | none =>
      rw [horacle] at hfl
      simp [extractFactsFromSingleChunk] at hfl
    | some j =>
      rw [horacle] at hfl
      exact factOk_includes (List.of_mem_filter hfl)

theorem C3_hallucination_guard_witness :
    jsIncludes (ls (r"hello"))
        (jsToString ((jsGet (mkFact (ls (r"note")) (ls (r"x")) (ls (r"xyz")))
          (ls (r"source_text"))).getD .null)) = false ∧
    mkFact (ls (r"note")) (ls (r"x")) (ls (r"xyz")) ∉
      extractFactsFromSingleChunk (ls (r"hello"))
        (some (.obj [(ls (r"facts"),
          .arr [mkFact (ls (r"note")) (ls (r"x")) (ls (r"xyz"))])])) ∧
    (∃ c ∈ chunkTextForExtraction (ls (r"I like tea.")),
        jsIncludes c (jsToString ((jsGet
          (mkFact (ls (r"interest")) (ls (r"likes tea")) (ls (r"like tea")))
          (ls (r"source_text"))).getD .null)) = true) :=
  ⟨by decide,
   C3_hallucination_guard.1 (ls (r"hello")) _ _ (by decide),
   C3_hallucination_guard.2 (ls (r"I like tea."))
     (fun _ => some (.obj [(ls (r"facts"),
        .arr [mkFact (ls (r"interest")) (ls (r"likes tea")) (ls (r"like tea"))])]))
     (mkFact (ls (r"interest")) (ls (r"likes tea")) (ls (r"like tea")))
     (List.mem_singleton_self _)⟩
